import Mathlib

/-!
Shallow embedding of the vatic template engine (src/template/{parser,functions,pipes,mod}.rs)
together with the supporting data model from src/config/{dictionary,secrets}.rs.

Modelling conventions:
- Rust strings are Lean `String`/`List Char`; the one place where Rust operates on raw
  UTF-8 byte indices (`parse_duration`'s `split_at(len - 1)`) is modelled through
  `Char.utf8Size`: splitting one byte before the end of a string is a char boundary
  exactly when the final char is a single UTF-8 byte, otherwise Rust panics.
- Rust `Result<T, Error>` is `Except TError` for code that cannot panic, and the
  `Outcome` type (which adds a `crash` constructor for a Rust panic/abort) for the
  evaluation path that can reach `parse_duration`.
- `HashMap<String, V>` values are used by the engine only through `get`/`insert`;
  they are modelled as association lists with overwrite-on-insert semantics.
- `chrono` is an external collaborator: `Local::now()` and date formatting are
  abstracted into a `Clock` record passed to the evaluator, and `chrono::Duration`
  values are modelled as whole minutes (`Int`), with `days`/`hours`/`minutes`
  as the corresponding multiples.
-/

namespace Vatic

/-- Template-engine errors. Each constructor corresponds to one distinct
`Error::Template(format!(...))` site in the source, carrying the data that
the source interpolates into the message. -/
inductive TError where
  | unclosedTag
  | emptyTag
  | invalidParamMissingSep (part : String)
  | invalidParamEmptyKey (part : String)
  | invalidForLoopSyntax (body : String)
  | unclosedRangeParen
  | invalidRangeSyntax (rangeStr : String)
  | invalidRangeStart (s : String)
  | invalidRangeEnd (s : String)
  | missingCollectionName
  | unterminatedForLoop
  | unexpectedEndFor
  | unknownCollection (name : String)
  | unknownTag (name : String)
  | unknownLoopVariable (name : String)
  | indexVarHasNoField (var field : String)
  | memoryHasNoField (field : String)
  | unknownDictionaryKey (key : String)
  | unknownSecret (name : String)
  | emptyDuration
  | invalidDurationNumber (numStr : String)
  | unknownDurationUnit (unit : String)
  | invalidMemoryOffset (minusStr : String)
  | memoryOffsetOutOfRange (offset : Nat) (available : Nat)
  | notAnIndex (var : String)
  | unknownPipe (name : String)
  deriving DecidableEq, Repr

/-- The message text each error renders to, mirroring the `format!` strings in the
source (the `Error::Template` display prefix is omitted, it is common to all). -/
def TError.message : TError → String
  | .unclosedTag => "unclosed tag: missing '%\x7d'"
  | .emptyTag => "empty tag"
  | .invalidParamMissingSep p => "invalid parameter (missing '=' or ':'): '" ++ p ++ "'"
  | .invalidParamEmptyKey p => "empty parameter key in '" ++ p ++ "'"
  | .invalidForLoopSyntax b => "invalid for loop syntax: 'for " ++ b ++ "'"
  | .unclosedRangeParen => "unclosed range parenthesis"
  | .invalidRangeSyntax s => "invalid range syntax: '" ++ s ++ "'"
  | .invalidRangeStart s => "invalid range start: '" ++ s ++ "'"
  | .invalidRangeEnd s => "invalid range end: '" ++ s ++ "'"
  | .missingCollectionName => "missing collection name in for loop"
  | .unterminatedForLoop => "for loop without matching endfor"
  | .unexpectedEndFor => "unexpected endfor outside for loop"
  | .unknownCollection n => "unknown collection: '" ++ n ++ "'"
  | .unknownTag n => "unknown tag: '" ++ n ++ "'"
  | .unknownLoopVariable v => "unknown loop variable: '" ++ v ++ "'"
  | .indexVarHasNoField v f => "index variable '" ++ v ++ "' has no field '" ++ f ++ "'"
  | .memoryHasNoField f => "memory has no field '" ++ f ++ "'"
  | .unknownDictionaryKey k => "unknown dictionary key: 'custom:" ++ k ++ "'"
  | .unknownSecret n => "unknown secret for proxy: '" ++ n ++ "'"
  | .emptyDuration => "empty duration"
  | .invalidDurationNumber s => "invalid duration number: '" ++ s ++ "'"
  | .unknownDurationUnit u => "unknown duration unit: '" ++ u ++ "'"
  | .invalidMemoryOffset s => "invalid memory offset: '" ++ s ++ "'"
  | .memoryOffsetOutOfRange off n =>
      "no memory at offset " ++ toString off ++ " (have " ++ toString n ++ " memories)"
  | .notAnIndex v => "loop variable '" ++ v ++ "' is not an index, cannot interpolate"
  | .unknownPipe p => "unknown pipe: '" ++ p ++ "'"

/-- Result of running a piece of Rust code that may return a value, return an
error, or panic (abort the process). `crash` models a Rust panic. -/
inductive Outcome (α : Type) where
  | crash (msg : String)
  | err (e : TError)
  | ok (a : α)
  deriving DecidableEq, Repr

def Outcome.bind {α β : Type} : Outcome α → (α → Outcome β) → Outcome β
  | .crash m, _ => .crash m
  | .err e, _ => .err e
  | .ok a, f => f a

instance : Monad Outcome where
  pure := Outcome.ok
  bind := Outcome.bind

@[simp] theorem Outcome.ok_bind {α β : Type} (a : α) (f : α → Outcome β) :
    (Outcome.ok a : Outcome α) >>= f = f a := rfl

@[simp] theorem Outcome.err_bind {α β : Type} (e : TError) (f : α → Outcome β) :
    (Outcome.err e : Outcome α) >>= f = .err e := rfl

@[simp] theorem Outcome.crash_bind {α β : Type} (m : String) (f : α → Outcome β) :
    (Outcome.crash m : Outcome α) >>= f = .crash m := rfl

@[simp] theorem Outcome.pure_eq_ok {α : Type} (a : α) :
    (pure a : Outcome α) = .ok a := rfl

/-- Lift a non-panicking (`Result`-returning) computation into `Outcome`. -/
def liftE {α : Type} : Except TError α → Outcome α
  | .ok a => .ok a
  | .error e => .err e

@[simp] theorem liftE_ok {α : Type} (a : α) : liftE (.ok a) = (.ok a : Outcome α) := rfl

@[simp] theorem liftE_error {α : Type} (e : TError) :
    liftE (.error e : Except TError α) = .err e := rfl

instance {ε α : Type} [DecidableEq ε] [DecidableEq α] :
    DecidableEq (Except ε α) := fun x y =>
  match x, y with
  | .error e, .error f =>
      if h : e = f then .isTrue (by rw [h])
      else .isFalse (fun hh => h (Except.error.inj hh))
  | .ok a, .ok b =>
      if h : a = b then .isTrue (by rw [h])
      else .isFalse (fun hh => h (Except.ok.inj hh))
  | .error _, .ok _ => .isFalse (fun hh => Except.noConfusion hh)
  | .ok _, .error _ => .isFalse (fun hh => Except.noConfusion hh)

/-! ## Data model (template/parser.rs and template/functions.rs) -/

/-- One stored prior job result (functions.rs `MemoryEntry`). -/
structure MemoryEntry where
  date : String
  datetime : String
  result : String
  deriving DecidableEq, Repr

/-- Loop-variable values (functions.rs `LoopValue`). -/
inductive LoopValue where
  | Index (i : Int)
  | Memory (m : MemoryEntry)
  deriving DecidableEq, Repr

/-- Association list standing in for `HashMap<String, V>` as used by the engine:
`get` returns the bound value, `insert` overwrites an existing binding. -/
def lookupA {α : Type} (l : List (String × α)) (k : String) : Option α :=
  (l.find? (fun p => p.1 == k)).map (·.2)

def insertA {α : Type} (l : List (String × α)) (k : String) (v : α) :
    List (String × α) :=
  (k, v) :: l.filter (fun p => p.1 != k)

/-- Parameter map of a tag or for-loop (`HashMap<String, String>`). -/
abbrev Params := List (String × String)

/-- Parsed contents of a non-control tag (parser.rs `TagContent`). -/
structure TagContent where
  name : String
  params : Params
  pipe : Option String
  deriving DecidableEq, Repr

/-- For-loop iterable (parser.rs `Iterable`); `Range` carries the two `i64` bounds. -/
inductive Iterable where
  | Range (lo hi : Int)
  | Collection (name : String)
  deriving DecidableEq, Repr

/-- Parsed for-loop header (parser.rs `ForLoop`). -/
structure ForLoop where
  var : String
  iterable : Iterable
  params : Params
  deriving DecidableEq, Repr

/-- Template token (parser.rs `Token`; the `Cow` borrow vs. owned distinction of
`Literal` is a performance detail with no behavioural content, `into_owned` is
the identity here). -/
inductive Token where
  | Literal (s : String)
  | Tag (t : TagContent)
  | ForStart (f : ForLoop)
  | ForEnd
  deriving DecidableEq, Repr

/-- Two-level (section, key) lookup table (config/dictionary.rs `Dictionary`). -/
structure Dictionary where
  entries : List (String × List (String × String))
  deriving DecidableEq, Repr

def Dictionary.get (d : Dictionary) (sect key : String) : Option String :=
  (lookupA d.entries sect).bind (fun s => lookupA s key)

/-- One secret record (config/secrets.rs `Secret`). -/
structure Secret where
  key : String
  header : String
  match_url : String
  deriving DecidableEq, Repr

/-- Named secret registry (config/secrets.rs `Secrets`). -/
structure Secrets where
  entries : List (String × Secret)
  deriving DecidableEq, Repr

def Secrets.get (s : Secrets) (name : String) : Option Secret :=
  lookupA s.entries name

/-- Rendering context (functions.rs `RenderContext`). -/
structure RenderContext where
  dictionary : Dictionary
  secrets : Secrets
  result : Option String
  message : Option String
  sender : Option String
  memories : List MemoryEntry
  loop_vars : List (String × LoopValue)
  deriving DecidableEq, Repr

/-- `RenderContext::new`: minimal context over a dictionary. -/
def RenderContext.new (d : Dictionary) : RenderContext :=
  ⟨d, ⟨[]⟩, none, none, none, [], []⟩

/-- The `iter_ctx.loop_vars.insert(var, value)` step of `execute_for_loop`. -/
def RenderContext.withLoopVar (ctx : RenderContext) (var : String) (v : LoopValue) :
    RenderContext :=
  { ctx with loop_vars := insertA ctx.loop_vars var v }

/-- Abstraction of the `chrono` collaborator: the current instant (in minutes,
matching the `Duration` scale) and the three formatters the engine uses. -/
structure Clock where
  now : Int
  fmtDate : Int → String
  fmtDateTime : Int → String
  fmtIso : Int → String

/-- A trivial clock instance, used for closed concrete statements. -/
def trivClock : Clock := ⟨0, fun _ => "", fun _ => "", fun _ => ""⟩

/-- An empty rendering context, used for closed concrete statements. -/
def emptyCtx : RenderContext := RenderContext.new ⟨[]⟩

/-! ## String helpers shared by the parser and resolver -/

/-- First index at which `pat` occurs as a contiguous sublist (Rust `str::find`
for a substring pattern). -/
def findSub (pat : List Char) : List Char → Option Nat
  | [] => if pat = [] then some 0 else none
  | c :: rest =>
      if pat.isPrefixOf (c :: rest) then some 0
      else (findSub pat rest).map (· + 1)

/-- Rust `str::trim` (the engine only ever feeds it ASCII whitespace). -/
def trimChars (l : List Char) : List Char :=
  ((l.dropWhile Char.isWhitespace).reverse.dropWhile Char.isWhitespace).reverse

/-- Rust `str::splitn(n, ' ')`: at most `n` pieces, split at the first `n - 1`
occurrences of `sep`; consecutive separators yield empty pieces. -/
def splitnChar : Nat → Char → List Char → List (List Char)
  | 0, _, _ => []
  | 1, _, l => [l]
  | n + 2, sep, l =>
      match l.findIdx? (· == sep) with
      | none => [l]
      | some i => l.take i :: splitnChar (n + 1) sep (l.drop (i + 1))

theorem findSub_some_bound (pat : List Char) (hp : pat ≠ []) :
    ∀ (l : List Char) (i : Nat), findSub pat l = some i → i + pat.length ≤ l.length := by
  intro l
  induction l with
  | nil =>
      intro i h
      simp [findSub, hp] at h
  | cons c rest ih =>
      intro i h
      simp only [findSub] at h
      by_cases hpre : pat.isPrefixOf (c :: rest)
      · simp [hpre] at h
        subst h
        have := List.IsPrefix.length_le (List.isPrefixOf_iff_prefix.mp hpre)
        simpa using this
      · simp [hpre] at h
        obtain ⟨j, hj, rfl⟩ := h
        have := ih j hj
        simp only [List.length_cons]
        omega

/-- Rust `str::split("..")`: all pieces, splitting left to right without overlap. -/
def splitDotDot (l : List Char) : List (List Char) :=
  match h : findSub ['.', '.'] l with
  | none => [l]
  | some i => l.take i :: splitDotDot (l.drop (i + 2))
termination_by l.length
decreasing_by
  have hb := findSub_some_bound ['.', '.'] (by simp) l i h
  simp only [List.length_drop, List.length_cons] at *
  omega

/-- Rust `str::strip_prefix` on strings. -/
def stripPre (p s : String) : Option String :=
  if p.data.isPrefixOf s.data then some ⟨s.data.drop p.data.length⟩ else none

/-- Decimal digit run to its value; `none` when empty or not all ASCII digits
(the core of Rust integer `FromStr`). -/
def digitsToNat : List Char → Option Nat
  | [] => none
  | l =>
      if l.all Char.isDigit then
        some (l.foldl (fun acc c => acc * 10 + (c.toNat - '0'.toNat)) 0)
      else none

/-- Rust `str::parse::<i64>()`: optional sign, digit run, i64 range check. -/
def parseI64 (l : List Char) : Option Int :=
  match l with
  | '+' :: rest =>
      (digitsToNat rest).bind (fun n => if n ≤ 2 ^ 63 - 1 then some (n : Int) else none)
  | '-' :: rest =>
      (digitsToNat rest).bind (fun n => if n ≤ 2 ^ 63 then some (-(n : Int)) else none)
  | _ => (digitsToNat l).bind (fun n => if n ≤ 2 ^ 63 - 1 then some (n : Int) else none)

/-- Rust `str::parse::<usize>()`: optional `+`, digit run, u64 range check. -/
def parseUsize (l : List Char) : Option Nat :=
  match l with
  | '+' :: rest =>
      (digitsToNat rest).bind (fun n => if n ≤ 2 ^ 64 - 1 then some n else none)
  | _ => (digitsToNat l).bind (fun n => if n ≤ 2 ^ 64 - 1 then some n else none)

/-! ## Tag/for-loop parser (template/parser.rs) -/

/-- parser.rs `tokenize_tag_parts`: whitespace splitting that respects
double-quoted substrings; the quote characters are retained in the parts. -/
def tokenizeTagPartsAux : List Char → Bool → List Char → List (List Char)
  | [], _, current => if current = [] then [] else [current.reverse]
  | c :: rest, inQuotes, current =>
      if c = '"' then tokenizeTagPartsAux rest (!inQuotes) (c :: current)
      else if (c = ' ' ∨ c = '\t') ∧ !inQuotes then
        if current = [] then tokenizeTagPartsAux rest inQuotes []
        else current.reverse :: tokenizeTagPartsAux rest inQuotes []
      else tokenizeTagPartsAux rest inQuotes (c :: current)

def tokenizeTagParts (input : List Char) : List (List Char) :=
  tokenizeTagPartsAux input false []

/-- parser.rs `split_pipe`: split on the first vertical bar; an empty trimmed
after-text means no pipe. -/
def splitPipe (body : List Char) : List Char × Option String :=
  match body.findIdx? (· == '|') with
  | some pos =>
      let before := trimChars (body.take pos)
      let after := trimChars (body.drop (pos + 1))
      if after = [] then (before, none) else (before, some ⟨after⟩)
  | none => (body, none)

/-- parser.rs `parse_param`: split at the first equals sign if any, else the
first colon; an empty key is an error, a missing separator is an error. -/
def parseParam (param : List Char) : Except TError (String × String) :=
  let sepPos :=
    match param.findIdx? (· == '=') with
    | some p => some p
    | none => param.findIdx? (· == ':')
  match sepPos with
  | some pos =>
      let key := param.take pos
      let value := param.drop (pos + 1)
      if key = [] then .error (.invalidParamEmptyKey ⟨param⟩)
      else .ok (⟨key⟩, ⟨value⟩)
  | none => .error (.invalidParamMissingSep ⟨param⟩)

/-- The `for part in parts { params.insert(parse_param(part)?) }` loops of
`parse_tag_body` and `parse_for_loop`. -/
def parseParams : List (List Char) → Params → Except TError Params
  | [], acc => .ok acc
  | p :: rest, acc =>
      match parseParam p with
      | .error e => .error e
      | .ok (k, v) => parseParams rest (insertA acc k v)

/-- The iterable-parsing tail of parser.rs `parse_for_loop`, applied to
`parts[2]` once the `<var> in <rest>` shape has been checked: a parenthesised
integer range, or a collection name followed by loop params. -/
def parseForRest (var : String) (iterableAndRest : List Char) : Except TError Token :=
  let r := trimChars iterableAndRest
  if r.head? = some '(' then
    match r.findIdx? (· == ')') with
    | none => .error .unclosedRangeParen
    | some rangeEnd =>
        let rangeStr := (r.take rangeEnd).drop 1
        match splitDotDot rangeStr with
        | [a, b] =>
            match parseI64 (trimChars a) with
            | none => .error (.invalidRangeStart ⟨a⟩)
            | some lo =>
                match parseI64 (trimChars b) with
                | none => .error (.invalidRangeEnd ⟨b⟩)
                | some hi => .ok (.ForStart ⟨var, .Range lo hi, []⟩)
        | _ => .error (.invalidRangeSyntax ⟨rangeStr⟩)
  else
    match tokenizeTagParts r with
    | [] => .error .missingCollectionName
    | name :: ps =>
        match parseParams ps [] with
        | .error e => .error e
        | .ok params => .ok (.ForStart ⟨var, .Collection ⟨name⟩, params⟩)

/-- parser.rs `parse_for_loop`: requires the shape `<var> in <rest>` after
splitting into at most 3 pieces on the space character. -/
def parseForLoop (body : List Char) : Except TError Token :=
  let parts := splitnChar 3 ' ' body
  match parts with
  | [v, w, rest] =>
      if w = ['i', 'n'] then parseForRest ⟨v⟩ rest
      else .error (.invalidForLoopSyntax ⟨body⟩)
  | _ => .error (.invalidForLoopSyntax ⟨body⟩)

/-- parser.rs `parse_tag_body`: dispatch the trimmed text between the delimiters
to endfor / for-loop / plain-tag parsing. -/
def parseTagBody (body : List Char) : Except TError Token :=
  if body = "endfor".data then .ok .ForEnd
  else if "for ".data.isPrefixOf body then parseForLoop (trimChars (body.drop 4))
  else
    let bp := splitPipe body
    match tokenizeTagParts bp.1 with
    | [] => .error .emptyTag
    | name :: rest =>
        match parseParams rest [] with
        | .error e => .error e
        | .ok params => .ok (.Tag ⟨⟨name⟩, params, bp.2⟩)

/-- parser.rs `tokenize`: scan for delimiter pairs, emitting literals between them. -/
def tokenizeAux (rest : List Char) : Except TError (List Token) :=
  if hr : rest = [] then .ok []
  else
    match findSub ['{', '%'] rest with
    | some tagStart =>
        let afterOpen := rest.drop (tagStart + 2)
        match findSub ['%', '\x7d'] afterOpen with
        | none => .error .unclosedTag
        | some tagEnd =>
            match parseTagBody (trimChars (afterOpen.take tagEnd)) with
            | .error e => .error e
            | .ok tok =>
                match tokenizeAux (afterOpen.drop (tagEnd + 2)) with
                | .error e => .error e
                | .ok toks =>
                    .ok ((if tagStart > 0 then [Token.Literal ⟨rest.take tagStart⟩] else [])
                      ++ tok :: toks)
    | none => .ok [Token.Literal ⟨rest⟩]
termination_by rest.length
decreasing_by
  simp only [List.length_drop]
  have : rest.length ≠ 0 := fun h => hr (List.length_eq_zero.mp h)
  omega

def tokenize (input : String) : Except TError (List Token) :=
  tokenizeAux input.data

/-! ## Tag resolver (template/functions.rs) -/

/-- functions.rs `resolve_proxy`. -/
def resolveProxy (name : String) (ctx : RenderContext) : Except TError String :=
  match ctx.secrets.get name with
  | some s => .ok s.match_url
  | none => .error (.unknownSecret name)

/-- functions.rs `resolve_custom`. -/
def resolveCustom (key : String) (ctx : RenderContext) : Except TError String :=
  match ctx.dictionary.get "general" key with
  | some s => .ok s
  | none => .error (.unknownDictionaryKey key)

/-- functions.rs `resolve_loop_var_field`: dotted access `var.field`. -/
def resolveLoopVarField (var field : String) (ctx : RenderContext) :
    Except TError String :=
  match lookupA ctx.loop_vars var with
  | none => .error (.unknownLoopVariable var)
  | some (.Index _) => .error (.indexVarHasNoField var field)
  | some (.Memory m) =>
      if field = "date" then .ok m.date
      else if field = "datetime" then .ok m.datetime
      else if field = "result" then .ok m.result
      else .error (.memoryHasNoField field)

/-- The `memories.get(offset)` tail of functions.rs `resolve_memory`. -/
def memoryAt (offset : Nat) (ctx : RenderContext) : Except TError String :=
  match ctx.memories[offset]? with
  | some m => .ok m.result
  | none => .error (.memoryOffsetOutOfRange offset ctx.memories.length)

/-- functions.rs `resolve_memory`: `minus=1` (or absent) is the newest entry,
`minus=0` also maps to offset 0, `minus=k` to offset `k - 1`. -/
def resolveMemory (tag : TagContent) (ctx : RenderContext) : Except TError String :=
  match lookupA tag.params "minus" with
  | some minusStr =>
      match parseUsize minusStr.data with
      | none => .error (.invalidMemoryOffset minusStr)
      | some v => memoryAt (if v = 0 then 0 else v - 1) ctx
  | none => memoryAt 0 ctx

/-- functions.rs `resolve_param_value`: loop-variable interpolation of a param's
raw text. A double quote splits it into a variable name and a suffix whose
trailing quotes are stripped (`trim_end_matches('"')`); an unknown variable
falls through to the raw text unchanged. -/
def resolveParamValue (value : String) (ctx : RenderContext) : Except TError String :=
  match value.data.findIdx? (· == '"') with
  | some quotePos =>
      let varPart : String := ⟨value.data.take quotePos⟩
      let rest := value.data.drop (quotePos + 1)
      let suffix := (rest.reverse.dropWhile (· == '"')).reverse
      match lookupA ctx.loop_vars varPart with
      | some (.Index i) => .ok (toString i ++ (⟨suffix⟩ : String))
      | some (.Memory _) => .error (.notAnIndex varPart)
      | none => .ok value
  | none => .ok value

/-- functions.rs `parse_duration`. The source splits the input one BYTE before
its end (`input.split_at(input.len() - 1)`); that position is a char boundary
exactly when the final char is a single UTF-8 byte, and otherwise `split_at`
panics, modelled by `crash`. Durations are in minutes (`chrono::Duration` is an
external collaborator; its `days`/`hours`/`minutes` constructors are modelled
as the exact multiples 1440/60/1). -/
def parseDuration (input : String) : Outcome Int :=
  match input.data.reverse with
  | [] => .err .emptyDuration
  | unit :: revNum =>
      if unit.utf8Size ≠ 1 then .crash "byte index is not a char boundary"
      else
        let numStr : String := ⟨revNum.reverse⟩
        match parseI64 numStr.data with
        | none => .err (.invalidDurationNumber numStr)
        | some n =>
            if unit = 'd' then .ok (n * 1440)
            else if unit = 'h' then .ok (n * 60)
            else if unit = 'm' then .ok n
            else .err (.unknownDurationUnit ⟨[unit]⟩)

/-- functions.rs `compute_offset`: subtract the resolved `minus` duration, add
the resolved `plus` duration. -/
def computeOffset (params : Params) (ctx : RenderContext) : Outcome Int := do
  let afterMinus : Int ←
    match lookupA params "minus" with
    | some minusVal => do
        let resolved ← liftE (resolveParamValue minusVal ctx)
        let dur ← parseDuration resolved
        pure (0 - dur)
    | none => pure 0
  match lookupA params "plus" with
  | some plusVal => do
      let resolved ← liftE (resolveParamValue plusVal ctx)
      let dur ← parseDuration resolved
      pure (afterMinus + dur)
  | none => pure afterMinus

/-- functions.rs `resolve_date`. -/
def resolveDate (clock : Clock) (tag : TagContent) (ctx : RenderContext) :
    Outcome String := do
  let offset ← computeOffset tag.params ctx
  pure (clock.fmtDate (clock.now + offset))

/-- functions.rs `resolve_datetime`. -/
def resolveDatetime (clock : Clock) (tag : TagContent) (ctx : RenderContext) :
    Outcome String := do
  let offset ← computeOffset tag.params ctx
  pure (clock.fmtDateTime (clock.now + offset))

/-- functions.rs `resolve_tag`: the cascading dispatch — dotted loop-variable
field access, `proxy:`, `custom:`, the built-in names, then bare loop-variable
lookup, and finally an unknown-tag error. -/
def resolveTag (clock : Clock) (tag : TagContent) (ctx : RenderContext) :
    Outcome String :=
  let name := tag.name
  match name.data.findIdx? (· == '.') with
  | some dotPos =>
      liftE (resolveLoopVarField ⟨name.data.take dotPos⟩ ⟨name.data.drop (dotPos + 1)⟩ ctx)
  | none =>
      match stripPre "proxy:" name with
      | some secretName => liftE (resolveProxy secretName ctx)
      | none =>
          match stripPre "custom:" name with
          | some key => liftE (resolveCustom key ctx)
          | none =>
              if name = "date" then resolveDate clock tag ctx
              else if name = "datetime" then resolveDatetime clock tag ctx
              else if name = "datetimeiso" then .ok (clock.fmtIso clock.now)
              else if name = "result" then .ok (ctx.result.getD "")
              else if name = "message" then .ok (ctx.message.getD "")
              else if name = "sender" then .ok (ctx.sender.getD "")
              else if name = "memory" then liftE (resolveMemory tag ctx)
              else
                match lookupA ctx.loop_vars name with
                | some (.Index i) => .ok (toString i)
                | some (.Memory m) => .ok m.result
                | none => .err (.unknownTag name)

/-! ## Pipes (template/pipes.rs) -/

/-- pipes.rs `apply_pipe` (async in the source, pure here: the one registered
pipe suspends on nothing). -/
def applyPipe (pipe : String) (input : String) : Outcome String :=
  if pipe = "summary" then .ok ("Summary of: " ++ input)
  else .err (.unknownPipe pipe)

/-! ## Evaluator (template/mod.rs) -/

/-- mod.rs `collect_for_body`, as a recursion over the token slice with the
nesting-depth counter: body tokens between a `ForStart` and its matching
`ForEnd`, plus the match's index. -/
def collectForBodyAux (depth : Nat) : List Token → Except TError (List Token × Nat)
  | [] => .error .unterminatedForLoop
  | .ForEnd :: ts =>
      if depth = 0 then .ok ([], 0)
      else
        match collectForBodyAux (depth - 1) ts with
        | .error e => .error e
        | .ok (b, i) => .ok (.ForEnd :: b, i + 1)
  | .ForStart f :: ts =>
      match collectForBodyAux (depth + 1) ts with
      | .error e => .error e
      | .ok (b, i) => .ok (.ForStart f :: b, i + 1)
  | t :: ts =>
      match collectForBodyAux depth ts with
      | .error e => .error e
      | .ok (b, i) => .ok (t :: b, i + 1)

def collectForBody (tokens : List Token) : Except TError (List Token × Nat) :=
  collectForBodyAux 0 tokens

theorem collectForBodyAux_bounds (depth : Nat) (ts : List Token)
    (b : List Token) (i : Nat) (h : collectForBodyAux depth ts = .ok (b, i)) :
    b.length = i ∧ i < ts.length := by
  induction ts generalizing depth b i with
  | nil => simp [collectForBodyAux] at h
  | cons t rest ih =>
      cases t with
      | ForEnd =>
          by_cases hd : depth = 0
          · simp [collectForBodyAux, hd] at h
            obtain ⟨rfl, rfl⟩ := h
            simp
          · simp only [collectForBodyAux, hd, if_false] at h
            cases hr : collectForBodyAux (depth - 1) rest with
            | error e => rw [hr] at h; cases h
            | ok bi =>
                rw [hr] at h
                obtain ⟨b', i'⟩ := bi
                simp at h
                obtain ⟨rfl, rfl⟩ := h
                have := ih (depth - 1) b' i' hr
                simp [List.length_cons]
                omega
      | ForStart f =>
          simp only [collectForBodyAux] at h
          cases hr : collectForBodyAux (depth + 1) rest with
          | error e => rw [hr] at h; cases h
          | ok bi =>
              rw [hr] at h
              obtain ⟨b', i'⟩ := bi
              simp at h
              obtain ⟨rfl, rfl⟩ := h
              have := ih (depth + 1) b' i' hr
              simp [List.length_cons]
              omega
      | Literal s =>
          simp only [collectForBodyAux] at h
          cases hr : collectForBodyAux depth rest with
          | error e => rw [hr] at h; cases h
          | ok bi =>
              rw [hr] at h
              obtain ⟨b', i'⟩ := bi
              simp at h
              obtain ⟨rfl, rfl⟩ := h
              have := ih depth b' i' hr
              simp [List.length_cons]
              omega
      | Tag t =>
          simp only [collectForBodyAux] at h
          cases hr : collectForBodyAux depth rest with
          | error e => rw [hr] at h; cases h
          | ok bi =>
              rw [hr] at h
              obtain ⟨b', i'⟩ := bi
              simp at h
              obtain ⟨rfl, rfl⟩ := h
              have := ih depth b' i' hr
              simp [List.length_cons]
              omega

theorem collectForBody_bounds (ts b : List Token) (i : Nat)
    (h : collectForBody ts = .ok (b, i)) : b.length = i ∧ i < ts.length :=
  collectForBodyAux_bounds 0 ts b i h

/-- The ascending inclusive `i64` range `start..=end` of the Rust for loop
(empty when the start exceeds the end). -/
def intRange (lo hi : Int) : List Int :=
  (List.range (hi + 1 - lo).toNat).map (fun n => lo + n)

/-- mod.rs `get_collection`: only `memories` is a recognized collection. -/
def getCollection (name : String) (ctx : RenderContext) :
    Except TError (List LoopValue) :=
  if name = "memories" then .ok (ctx.memories.map LoopValue.Memory)
  else .error (.unknownCollection name)

mutual

/-- mod.rs `render_tokens`: walk the token slice, appending literals, resolved
(and piped) tags, and executed for-blocks; a bare `ForEnd` is an error. -/
def renderTokens (clock : Clock) (toks : List Token) (ctx : RenderContext) :
    Outcome String :=
  match toks with
  | [] => .ok ""
  | .Literal s :: rest => do
      let r ← renderTokens clock rest ctx
      pure (s ++ r)
  | .Tag t :: rest => do
      let v ← resolveTag clock t ctx
      let fv ← match t.pipe with
        | some p => applyPipe p v
        | none => pure v
      let r ← renderTokens clock rest ctx
      pure (fv ++ r)
  | .ForStart f :: rest =>
      match hc : collectForBody rest with
      | .error e => .err e
      | .ok (body, endIdx) => do
          let s ← executeForLoop clock f body ctx
          let r ← renderTokens clock (rest.drop (endIdx + 1)) ctx
          pure (s ++ r)
  | .ForEnd :: _ => .err .unexpectedEndFor
termination_by (toks.length, 1, 0)
decreasing_by
  · apply Prod.Lex.left; simp
  · apply Prod.Lex.left; simp
  · have := collectForBody_bounds rest body endIdx hc
    apply Prod.Lex.left
    simp only [List.length_cons]
    omega
  · apply Prod.Lex.left
    simp only [List.length_drop, List.length_cons]
    omega

/-- mod.rs `execute_for_loop`: clone the context once per for-block, then run
the iterations for the range or (limited) collection items. -/
def executeForLoop (clock : Clock) (floop : ForLoop) (body : List Token)
    (ctx : RenderContext) : Outcome String :=
  match floop.iterable with
  | .Range lo hi =>
      renderIterations clock floop.var ((intRange lo hi).map LoopValue.Index) body ctx
  | .Collection name =>
      match getCollection name ctx with
      | .error e => .err e
      | .ok items =>
          let takeCount :=
            match lookupA floop.params "limit" with
            | some v =>
                match parseUsize v.data with
                | some lim => min items.length lim
                | none => items.length
            | none => items.length
          renderIterations clock floop.var (items.take takeCount) body ctx
termination_by (body.length + 1, 1, 0)
decreasing_by
  · apply Prod.Lex.right
    apply Prod.Lex.left
    omega
  · apply Prod.Lex.right
    apply Prod.Lex.left
    omega

/-- The per-iteration loop body of `execute_for_loop`: overwrite the cloned
context's loop-variable entry, render the body against it, append. -/
def renderIterations (clock : Clock) (var : String) (vals : List LoopValue)
    (body : List Token) (iterCtx : RenderContext) : Outcome String :=
  match vals with
  | [] => .ok ""
  | v :: rest => do
      let ctx' := iterCtx.withLoopVar var v
      let r ← renderTokens clock body ctx'
      let rs ← renderIterations clock var rest body ctx'
      pure (r ++ rs)
termination_by (body.length + 1, 0, vals.length)
decreasing_by
  · apply Prod.Lex.left
    omega
  · apply Prod.Lex.right
    apply Prod.Lex.right
    simp only [List.length_cons]
    omega

end

/-- mod.rs `render`: tokenize, then evaluate. -/
def render (clock : Clock) (template : String) (ctx : RenderContext) :
    Outcome String :=
  match tokenize template with
  | .error e => .err e
  | .ok toks => renderTokens clock toks ctx

/-! ## Spec-side definitions used to state the claims -/

/-- Concatenation with no separator (the spec's description of loop output). -/
def concatAll : List String → String
  | [] => ""
  | s :: l => s ++ concatAll l

/-- Spec-side description of loop execution: render the body once per item, each
time against the for-block's context with the loop variable freshly bound. -/
def specIterate (clock : Clock) (var : String) (body : List Token)
    (ctx : RenderContext) : List LoopValue → Outcome String
  | [] => .ok ""
  | v :: rest => do
      let r ← renderTokens clock body (ctx.withLoopVar var v)
      let rs ← specIterate clock var body ctx rest
      pure (r ++ rs)

/-- Spec-side item count for a collection loop, following the claim's words: a
present `limit` param that parses as a non-negative integer caps the take at
`min available limit`; an absent or unparseable `limit` takes everything. -/
def specTakeCount (params : Params) (available : Nat) : Nat :=
  match lookupA params "limit" with
  | some v =>
      match parseUsize v.data with
      | some lim => min available lim
      | none => available
  | none => available

/-- Well-formed token sequences: every `ForStart` has its matching `ForEnd`
within the sequence, and no unmatched `ForEnd` occurs. -/
inductive Balanced : List Token → Prop
  | nil : Balanced []
  | lit (s : String) (ts : List Token) : Balanced ts → Balanced (.Literal s :: ts)
  | tag (t : TagContent) (ts : List Token) : Balanced ts → Balanced (.Tag t :: ts)
  | block (f : ForLoop) (b ts : List Token) :
      Balanced b → Balanced ts → Balanced (.ForStart f :: b ++ .ForEnd :: ts)

/-! ## Lemmas about the association-list maps -/

theorem find?_filter_ne {α : Type} (l : List (String × α)) (k k' : String)
    (h : k' ≠ k) :
    (l.filter (fun p => p.1 != k)).find? (fun p => p.1 == k') =
      l.find? (fun p => p.1 == k') := by
  induction l with
  | nil => simp
  | cons p rest ih =>
      by_cases hk : p.1 = k
      · have hne : (p.1 == k') = false := by
          simp only [beq_eq_false_iff_ne, ne_eq, hk]
          exact fun hh => h hh.symm
        have hne2 : (k == k') = false := by
          simp only [beq_eq_false_iff_ne, ne_eq]
          exact fun hh => h hh.symm
        simp [List.filter_cons, hk, List.find?_cons, hne, hne2, ih]
      · simp only [List.filter_cons, bne_iff_ne, ne_eq, hk, not_false_eq_true,
          ite_true, if_pos]
        rw [List.find?_cons, List.find?_cons]
        cases hp : (p.1 == k') with
        | true => rfl
        | false => exact ih

theorem lookupA_insertA {α : Type} (l : List (String × α)) (k : String) (v : α)
    (k' : String) :
    lookupA (insertA l k v) k' = if k' = k then some v else lookupA l k' := by
  unfold lookupA insertA
  by_cases h : k' = k
  · subst h
    simp [List.find?_cons]
  · have hne : (k == k') = false := by
      simp only [beq_eq_false_iff_ne, ne_eq]
      exact fun hh => h hh.symm
    rw [List.find?_cons]
    simp only [hne, if_neg h]
    rw [find?_filter_ne l k k' h]

theorem insertA_insertA {α : Type} (l : List (String × α)) (k : String)
    (v v' : α) : insertA (insertA l k v') k v = insertA l k v := by
  unfold insertA
  simp [List.filter_cons, List.filter_filter]

theorem withLoopVar_withLoopVar (ctx : RenderContext) (k : String)
    (v v' : LoopValue) :
    (ctx.withLoopVar k v').withLoopVar k v = ctx.withLoopVar k v := by
  simp [RenderContext.withLoopVar, insertA_insertA]

theorem lookupA_withLoopVar (ctx : RenderContext) (k : String) (v : LoopValue)
    (k' : String) :
    lookupA (ctx.withLoopVar k v).loop_vars k' =
      if k' = k then some v else lookupA ctx.loop_vars k' := by
  simp [RenderContext.withLoopVar, lookupA_insertA]

/-! ## Lemmas about the block matcher and the evaluator -/

theorem collectForBodyAux_append (b : List Token) (hb : Balanced b) :
    ∀ (depth : Nat) (ts : List Token),
      collectForBodyAux depth (b ++ ts) =
        match collectForBodyAux depth ts with
        | .error e => .error e
        | .ok (r, i) => .ok (b ++ r, b.length + i) := by
  induction hb with
  | nil =>
      intro depth ts
      simp only [List.nil_append]
      cases collectForBodyAux depth ts with
      | error e => rfl
      | ok ri => cases ri; simp
  | lit s ts' hts ih =>
      intro depth ts
      simp only [List.cons_append, List.append_eq, collectForBodyAux]
      rw [ih depth ts]
      cases collectForBodyAux depth ts with
      | error e => rfl
      | ok ri =>
          obtain ⟨r, i⟩ := ri
          simp only [Except.ok.injEq, Prod.mk.injEq, List.length_cons,
            List.cons_append]
          exact ⟨by simp, by omega⟩
  | tag t ts' hts ih =>
      intro depth ts
      simp only [List.cons_append, List.append_eq, collectForBodyAux]
      rw [ih depth ts]
      cases collectForBodyAux depth ts with
      | error e => rfl
      | ok ri =>
          obtain ⟨r, i⟩ := ri
          simp only [Except.ok.injEq, Prod.mk.injEq, List.length_cons,
            List.cons_append]
          exact ⟨by simp, by omega⟩
  | block f b' ts' hb' hts' ihb' ihts' =>
      intro depth ts
      have hassoc :
          (Token.ForStart f :: b' ++ Token.ForEnd :: ts') ++ ts =
            Token.ForStart f :: (b' ++ (Token.ForEnd :: (ts' ++ ts))) := by
        simp
      rw [hassoc]
      simp only [collectForBodyAux]
      rw [ihb' (depth + 1) (Token.ForEnd :: (ts' ++ ts))]
      simp only [collectForBodyAux, Nat.add_one_ne_zero, if_false, ite_false,
        Nat.add_sub_cancel]
      rw [ihts' depth ts]
      cases collectForBodyAux depth ts with
      | error e => rfl
      | ok ri =>
          obtain ⟨r, i⟩ := ri
          simp only [Except.ok.injEq, Prod.mk.injEq, List.length_cons,
            List.length_append, List.cons_append, List.append_assoc]
          exact ⟨by simp, by omega⟩

theorem collectForBody_balanced (b : List Token) (hb : Balanced b)
    (rest : List Token) :
    collectForBody (b ++ .ForEnd :: rest) = .ok (b, b.length) := by
  unfold collectForBody
  rw [collectForBodyAux_append b hb 0 (.ForEnd :: rest)]
  simp [collectForBodyAux]

theorem renderTokens_forBlock (clock : Clock) (f : ForLoop) (b rest : List Token)
    (ctx : RenderContext) (hb : Balanced b) :
    renderTokens clock (.ForStart f :: (b ++ .ForEnd :: rest)) ctx =
      (executeForLoop clock f b ctx >>= fun s =>
        renderTokens clock rest ctx >>= fun r => pure (s ++ r)) := by
  simp only [renderTokens]
  split
  · next e hc =>
      rw [collectForBody_balanced b hb rest] at hc
      cases hc
  · next body endIdx hc =>
      rw [collectForBody_balanced b hb rest] at hc
      injection hc with hc'
      injection hc' with h1 h2
      subst h1
      subst h2
      have hdrop : (b ++ Token.ForEnd :: rest).drop (b.length + 1) = rest := by
        have : b ++ Token.ForEnd :: rest = (b ++ [Token.ForEnd]) ++ rest := by simp
        rw [this]
        have hlen : (b ++ [Token.ForEnd]).length = b.length + 1 := by simp
        rw [← hlen, List.drop_left]
      rw [hdrop]

theorem renderIterations_eq_specIterate (clock : Clock) (var : String)
    (body : List Token) :
    ∀ (vals : List LoopValue) (ctx : RenderContext),
      renderIterations clock var vals body ctx = specIterate clock var body ctx vals := by
  have hshift : ∀ (vals : List LoopValue) (ctx : RenderContext) (w : LoopValue),
      specIterate clock var body (ctx.withLoopVar var w) vals =
        specIterate clock var body ctx vals := by
    intro vals
    induction vals with
    | nil => intro ctx w; simp [specIterate]
    | cons v rest ih =>
        intro ctx w
        simp only [specIterate]
        rw [withLoopVar_withLoopVar, ih]
  intro vals
  induction vals with
  | nil => intro ctx; simp [renderIterations, specIterate]
  | cons v rest ih =>
      intro ctx
      rw [renderIterations, specIterate]
      rw [ih (ctx.withLoopVar var v), hshift rest ctx v]

/-- First match position of a predicate over a split list: no match in the
prefix, a match at the split point. -/
theorem findIdx?_split {α : Type} (p : α → Bool) (pre : List α) (x : α)
    (post : List α) (hpre : ∀ c ∈ pre, p c = false) (hx : p x = true) :
    (pre ++ x :: post).findIdx? p = some pre.length := by
  rw [List.findIdx?_append, List.findIdx?_eq_none_iff.mpr hpre]
  rw [List.findIdx?_cons, hx]
  simp

theorem drop_split {α : Type} (pre : List α) (x : α) (post : List α) :
    (pre ++ x :: post).drop (pre.length + 1) = post := by
  have h : pre ++ x :: post = (pre ++ [x]) ++ post := by simp
  rw [h]
  have hlen : (pre ++ [x]).length = pre.length + 1 := by simp
  rw [← hlen, List.drop_left]

/-- The fallback branch of `resolve_tag`: a name with no dot, no `proxy:` or
`custom:` prefix, and not one of the built-in names resolves as a bare
loop-variable lookup, erring with `unknownTag` when unbound. -/
theorem resolveTag_plain (clock : Clock) (tag : TagContent) (ctx : RenderContext)
    (hdot : tag.name.data.findIdx? (· == '.') = none)
    (hproxy : "proxy:".data.isPrefixOf tag.name.data = false)
    (hcustom : "custom:".data.isPrefixOf tag.name.data = false)
    (hbuiltin : tag.name ∉ (["date", "datetime", "datetimeiso", "result",
      "message", "sender", "memory"] : List String)) :
    resolveTag clock tag ctx =
      match lookupA ctx.loop_vars tag.name with
      | some (.Index i) => .ok (toString i)
      | some (.Memory m) => .ok m.result
      | none => .err (.unknownTag tag.name) := by
  simp only [List.mem_cons, List.not_mem_nil, or_false, not_or] at hbuiltin
  obtain ⟨h1, h2, h3, h4, h5, h6, h7⟩ := hbuiltin
  simp only [resolveTag, stripPre, hdot, hproxy, hcustom, Bool.false_eq_true,
    if_false, ite_false, h1, h2, h3, h4, h5, h6, h7]

/-- Depth-scan of the claim's words: is there a `ForEnd` at the given nesting
depth (each `ForStart` increments, each `ForEnd` decrements)? -/
def hasEndAtDepth : Nat → List Token → Bool
  | _, [] => false
  | depth, .ForEnd :: ts => if depth = 0 then true else hasEndAtDepth (depth - 1) ts
  | depth, .ForStart _ :: ts => hasEndAtDepth (depth + 1) ts
  | depth, .Literal _ :: ts => hasEndAtDepth depth ts
  | depth, .Tag _ :: ts => hasEndAtDepth depth ts

theorem collectForBodyAux_of_no_end :
    ∀ (ts : List Token) (depth : Nat), hasEndAtDepth depth ts = false →
      collectForBodyAux depth ts = .error .unterminatedForLoop := by
  intro ts
  induction ts with
  | nil => intro depth _; simp [collectForBodyAux]
  | cons t rest ih =>
      intro depth h
      cases t with
      | ForEnd =>
          by_cases hd : depth = 0
          · subst hd; simp [hasEndAtDepth] at h
          · simp only [hasEndAtDepth, hd, if_false, ite_false] at h
            simp only [collectForBodyAux, hd, if_false, ite_false]
            rw [ih (depth - 1) h]
      | ForStart f =>
          simp only [hasEndAtDepth] at h
          simp only [collectForBodyAux]
          rw [ih (depth + 1) h]
      | Literal s =>
          simp only [hasEndAtDepth] at h
          simp only [collectForBodyAux]
          rw [ih depth h]
      | Tag t =>
          simp only [hasEndAtDepth] at h
          simp only [collectForBodyAux]
          rw [ih depth h]

/-- Rendering a body consisting of the bare loop-variable tag, once per index
value, yields the concatenated decimal values. -/
theorem specIterate_indexTag (clock : Clock) (ctx : RenderContext) (var : String)
    (hdot : var.data.findIdx? (· == '.') = none)
    (hproxy : "proxy:".data.isPrefixOf var.data = false)
    (hcustom : "custom:".data.isPrefixOf var.data = false)
    (hbuiltin : var ∉ (["date", "datetime", "datetimeiso", "result",
      "message", "sender", "memory"] : List String)) :
    ∀ (vals : List Int),
      specIterate clock var [.Tag ⟨var, [], none⟩] ctx (vals.map LoopValue.Index) =
        .ok (concatAll (vals.map (fun v => toString v))) := by
  intro vals
  induction vals with
  | nil => simp [specIterate, concatAll]
  | cons v rest ih =>
      have hres : resolveTag clock ⟨var, [], none⟩
          (ctx.withLoopVar var (.Index v)) = .ok (toString v) := by
        rw [resolveTag_plain clock ⟨var, [], none⟩ _ hdot hproxy hcustom hbuiltin]
        rw [lookupA_withLoopVar]
        simp
      simp only [List.map_cons, specIterate, renderTokens, hres, Outcome.ok_bind,
        Outcome.pure_eq_ok, ih, concatAll]
      simp [String.append_empty]

theorem intRange_of_gt (lo hi : Int) (h : hi < lo) : intRange lo hi = [] := by
  unfold intRange
  have : (hi + 1 - lo).toNat = 0 := by omega
  rw [this]
  rfl

/-! ## Claim theorems -/

/-- C1: executing a for-block over a `Range(start, end)` iterable renders the
body once per loop-variable value, for the values `start..end` inclusive in
ascending order (`intRange`), each against the per-loop context with the loop
variable bound, concatenated with no separator; when `start > end` the block
contributes the empty string and succeeds without evaluating the body; in
particular the spec's template form over the bare loop-variable tag renders the
decimal values concatenated. -/
theorem c1_range_loop :
    (∀ (clock : Clock) (ctx : RenderContext) (var : String) (params : Params)
        (body : List Token) (lo hi : Int),
      executeForLoop clock ⟨var, .Range lo hi, params⟩ body ctx =
        specIterate clock var body ctx ((intRange lo hi).map LoopValue.Index)) ∧
    (∀ (clock : Clock) (ctx : RenderContext) (var : String) (params : Params)
        (body : List Token) (lo hi : Int), hi < lo →
      executeForLoop clock ⟨var, .Range lo hi, params⟩ body ctx = .ok "") ∧
    (∀ (clock : Clock) (ctx : RenderContext) (lo hi : Int),
      renderTokens clock [.ForStart ⟨"i", .Range lo hi, []⟩, .Tag ⟨"i", [], none⟩,
          .ForEnd] ctx =
        .ok (concatAll ((intRange lo hi).map (fun v => toString v)))) := by
  have hmain : ∀ (clock : Clock) (ctx : RenderContext) (var : String)
      (params : Params) (body : List Token) (lo hi : Int),
      executeForLoop clock ⟨var, .Range lo hi, params⟩ body ctx =
        specIterate clock var body ctx ((intRange lo hi).map LoopValue.Index) := by
    intro clock ctx var params body lo hi
    rw [executeForLoop]
    exact renderIterations_eq_specIterate clock var body _ ctx
  refine ⟨hmain, ?_, ?_⟩
  · intro clock ctx var params body lo hi h
    rw [hmain, intRange_of_gt lo hi h]
    rfl
  · intro clock ctx lo hi
    have hb : Balanced [Token.Tag ⟨"i", [], none⟩] := .tag _ _ .nil
    have hfb := renderTokens_forBlock clock ⟨"i", .Range lo hi, []⟩
      [Token.Tag ⟨"i", [], none⟩] [] ctx hb
    simp only [List.cons_append, List.nil_append] at hfb
    rw [hfb, hmain]
    rw [specIterate_indexTag clock ctx "i" (by decide) (by decide) (by decide)
      (by decide) (intRange lo hi)]
    simp only [renderTokens, Outcome.ok_bind, Outcome.pure_eq_ok]
    rw [String.append_empty]

/-- Witness for C1 at concrete inputs: an inverted range contributes the empty
string, and the range 1..3 renders to the digits in ascending order. -/
theorem c1_range_loop_witness :
    executeForLoop trivClock ⟨"i", .Range 3 1, []⟩ [.Tag ⟨"i", [], none⟩]
      emptyCtx = .ok "" ∧
    renderTokens trivClock [.ForStart ⟨"i", .Range 1 3, []⟩, .Tag ⟨"i", [], none⟩,
      .ForEnd] emptyCtx = .ok "123" := by
  constructor
  · exact c1_range_loop.2.1 trivClock emptyCtx "i" [] [.Tag ⟨"i", [], none⟩] 3 1
      (by decide)
  · have h := c1_range_loop.2.2 trivClock emptyCtx 1 3
    rw [h]
    decide

/-- C2: resolving the `memory` tag goes through `resolve_memory`; an absent
`minus` uses offset 0, `minus` parsing to 0 uses offset 0, a positive `minus`
uses offset `minus - 1`; the entry at the offset in the memories list yields
its `result` field; an out-of-range offset (including the empty list) fails
with `memoryOffsetOutOfRange` whose message contains the requested offset and
the available count; an unparseable `minus` fails with `invalidMemoryOffset`. -/
theorem c2_memory_tag :
    (∀ (clock : Clock) (ctx : RenderContext) (params : Params) (pipe : Option String),
      resolveTag clock ⟨"memory", params, pipe⟩ ctx =
        liftE (resolveMemory ⟨"memory", params, pipe⟩ ctx)) ∧
    (∀ (ctx : RenderContext) (tag : TagContent),
      lookupA tag.params "minus" = none → resolveMemory tag ctx = memoryAt 0 ctx) ∧
    (∀ (ctx : RenderContext) (tag : TagContent) (s : String),
      lookupA tag.params "minus" = some s → parseUsize s.data = some 0 →
      resolveMemory tag ctx = memoryAt 0 ctx) ∧
    (∀ (ctx : RenderContext) (tag : TagContent) (s : String) (n : Nat),
      lookupA tag.params "minus" = some s → parseUsize s.data = some n → 0 < n →
      resolveMemory tag ctx = memoryAt (n - 1) ctx) ∧
    (∀ (ctx : RenderContext) (tag : TagContent) (s : String),
      lookupA tag.params "minus" = some s → parseUsize s.data = none →
      resolveMemory tag ctx = .error (.invalidMemoryOffset s)) ∧
    (∀ (ctx : RenderContext) (off : Nat) (m : MemoryEntry),
      ctx.memories[off]? = some m → memoryAt off ctx = .ok m.result) ∧
    (∀ (ctx : RenderContext) (off : Nat), ctx.memories.length ≤ off →
      memoryAt off ctx = .error (.memoryOffsetOutOfRange off ctx.memories.length) ∧
      (toString off).data <:+:
        (TError.memoryOffsetOutOfRange off ctx.memories.length).message.data ∧
      (toString ctx.memories.length).data <:+:
        (TError.memoryOffsetOutOfRange off ctx.memories.length).message.data) := by
  refine ⟨?_, ?_, ?_, ?_, ?_, ?_, ?_⟩
  · intro clock ctx params pipe
    simp [resolveTag, stripPre]
  · intro ctx tag h
    simp [resolveMemory, h]
  · intro ctx tag s h hp
    simp [resolveMemory, h, hp]
  · intro ctx tag s n h hp hn
    simp only [resolveMemory, h, hp]
    have : ¬(n = 0) := by omega
    simp [this]
  · intro ctx tag s h hp
    simp [resolveMemory, h, hp]
  · intro ctx off m h
    simp [memoryAt, h]
  · intro ctx off h
    have hg : ctx.memories[off]? = none := List.getElem?_eq_none h
    refine ⟨by simp [memoryAt, hg], ?_, ?_⟩
    · exact ⟨"no memory at offset ".data,
        (" (have " ++ toString ctx.memories.length ++ " memories)").data,
        by simp [TError.message, String.data_append]⟩
    · exact ⟨("no memory at offset " ++ toString off ++ " (have ").data,
        " memories)".data,
        by simp [TError.message, String.data_append]⟩

/-- Witness for C2: with three memories (newest first), `minus=2` resolves to
the second-newest entry's result, an out-of-range offset errors, and a
non-numeric `minus` errors. -/
theorem c2_memory_tag_witness :
    resolveTag trivClock ⟨"memory", [("minus", "2")], none⟩
        ⟨⟨[]⟩, ⟨[]⟩, none, none, none,
          [⟨"d1", "t1", "newest"⟩, ⟨"d2", "t2", "older"⟩, ⟨"d3", "t3", "oldest"⟩], []⟩ =
      liftE (resolveMemory ⟨"memory", [("minus", "2")], none⟩
        ⟨⟨[]⟩, ⟨[]⟩, none, none, none,
          [⟨"d1", "t1", "newest"⟩, ⟨"d2", "t2", "older"⟩, ⟨"d3", "t3", "oldest"⟩], []⟩) ∧
    resolveMemory ⟨"memory", [("minus", "2")], none⟩
        ⟨⟨[]⟩, ⟨[]⟩, none, none, none,
          [⟨"d1", "t1", "newest"⟩, ⟨"d2", "t2", "older"⟩, ⟨"d3", "t3", "oldest"⟩], []⟩ =
      memoryAt 1
        ⟨⟨[]⟩, ⟨[]⟩, none, none, none,
          [⟨"d1", "t1", "newest"⟩, ⟨"d2", "t2", "older"⟩, ⟨"d3", "t3", "oldest"⟩], []⟩ ∧
    memoryAt 98 emptyCtx = .error (.memoryOffsetOutOfRange 98 0) ∧
    resolveMemory ⟨"memory", [("minus", "abc")], none⟩ emptyCtx =
      .error (.invalidMemoryOffset "abc") := by
  refine ⟨?_, ?_, ?_, ?_⟩
  · exact c2_memory_tag.1 trivClock _ [("minus", "2")] none
  · exact c2_memory_tag.2.2.2.1 _ ⟨"memory", [("minus", "2")], none⟩ "2" 2
      (by decide) (by decide) (by decide)
  · have h := (c2_memory_tag.2.2.2.2.2.2 emptyCtx 98 (by decide)).1
    simpa using h
  · exact c2_memory_tag.2.2.2.2.1 emptyCtx ⟨"memory", [("minus", "abc")], none⟩
      "abc" (by decide) (by decide)

/-- C3 counterexample: two nested loops bind the same variable name; a tag
after the inner endfor renders the OUTER iteration's value again (output
"56[1]56[2]", outer values 1 and 2 in the brackets), not the inner loop's last
value (which would give "56[6]56[6]") — the inner binding lives in the inner
block's cloned context and does not survive past its endfor. -/
theorem c3_counterexample :
    renderTokens trivClock
      [.ForStart ⟨"i", .Range 1 2, []⟩,
       .ForStart ⟨"i", .Range 5 6, []⟩, .Tag ⟨"i", [], none⟩, .ForEnd,
       .Literal "[", .Tag ⟨"i", [], none⟩, .Literal "]",
       .ForEnd] emptyCtx = .ok "56[1]56[2]" ∧
    (Outcome.ok "56[1]56[2]" : Outcome String) ≠ .ok "56[6]56[6]" := by
  constructor
  · have ha : intRange 1 2 = [1, 2] := by decide
    have hb : intRange 5 6 = [5, 6] := by decide
    simp [renderTokens, executeForLoop, renderIterations, collectForBody,
      collectForBodyAux, ha, hb, List.map_cons, List.map_nil]
    decide
  · decide

/-- C3 amended: after an inner for-block that binds (and finishes with) the
same variable name, a following tag still resolves against the enclosing
context — the outer binding IS visible again after the inner endfor, because
each for-block mutates only its own clone of the context. -/
theorem c3_amended (clock : Clock) (ctx : RenderContext) (var : String)
    (fIn : ForLoop) (bIn : List Token) (s : String) (vOut : Int)
    (hb : Balanced bIn)
    (hok : executeForLoop clock fIn bIn ctx = .ok s)
    (hdot : var.data.findIdx? (· == '.') = none)
    (hproxy : "proxy:".data.isPrefixOf var.data = false)
    (hcustom : "custom:".data.isPrefixOf var.data = false)
    (hbuiltin : var ∉ (["date", "datetime", "datetimeiso", "result",
      "message", "sender", "memory"] : List String))
    (hbound : lookupA ctx.loop_vars var = some (.Index vOut)) :
    renderTokens clock
        (.ForStart fIn :: (bIn ++ .ForEnd :: [.Tag ⟨var, [], none⟩])) ctx =
      .ok (s ++ toString vOut) := by
  rw [renderTokens_forBlock clock fIn bIn _ ctx hb, hok]
  simp only [Outcome.ok_bind]
  simp only [renderTokens]
  rw [resolveTag_plain clock ⟨var, [], none⟩ ctx hdot hproxy hcustom hbuiltin]
  rw [hbound]
  simp [String.append_empty]

/-- Witness for the amended C3: with the outer binding i=1 in scope, the inner
loop over 5..6 renders "56" and the tag after its endfor renders the outer 1. -/
theorem c3_amended_witness :
    renderTokens trivClock
        (.ForStart ⟨"i", .Range 5 6, []⟩ ::
          ([.Tag ⟨"i", [], none⟩] ++ .ForEnd :: [.Tag ⟨"i", [], none⟩]))
        (emptyCtx.withLoopVar "i" (.Index 1)) =
      .ok ("56" ++ toString (1 : Int)) := by
  apply c3_amended trivClock (emptyCtx.withLoopVar "i" (.Index 1)) "i"
    ⟨"i", .Range 5 6, []⟩ [.Tag ⟨"i", [], none⟩] "56" 1 (.tag _ _ .nil)
  · have hb : intRange 5 6 = [5, 6] := by decide
    simp [executeForLoop, renderIterations, renderTokens, hb, List.map_cons,
      List.map_nil]
    decide
  · decide
  · decide
  · decide
  · decide
  · decide

/-- C4: `parse_duration` panics (rather than returning an error) when the last
character of its input is a multi-byte UTF-8 char: the source's
`input.split_at(input.len() - 1)` splits at a byte index that is then not a
char boundary. Consequently a `date` tag whose `minus` param carries such a
value aborts instead of returning a template error. -/
theorem c4_parse_duration_panics :
    parseDuration "1é" = .crash "byte index is not a char boundary" ∧
    resolveTag trivClock ⟨"date", [("minus", "1é")], none⟩ emptyCtx =
      .crash "byte index is not a char boundary" := by
  exact ⟨rfl, rfl⟩

/-- C5: interpolation of a param's raw text containing a double quote: the part
before the first quote names a loop variable and the remainder with trailing
quotes stripped is the suffix; an `Index(i)` binding yields the decimal of `i`
followed by the suffix, a `Memory` binding is an interpolation-type error, an
unbound name returns the raw text unchanged, and quote-free text is returned
unchanged. -/
theorem c5_param_interpolation :
    (∀ (ctx : RenderContext) (pre rest : List Char) (i : Int),
      '"' ∉ pre →
      lookupA ctx.loop_vars ⟨pre⟩ = some (.Index i) →
      resolveParamValue ⟨pre ++ '"' :: rest⟩ ctx =
        .ok (toString i ++ (⟨(rest.reverse.dropWhile (· == '"')).reverse⟩ : String))) ∧
    (∀ (ctx : RenderContext) (pre rest : List Char) (m : MemoryEntry),
      '"' ∉ pre →
      lookupA ctx.loop_vars ⟨pre⟩ = some (.Memory m) →
      resolveParamValue ⟨pre ++ '"' :: rest⟩ ctx = .error (.notAnIndex ⟨pre⟩)) ∧
    (∀ (ctx : RenderContext) (pre rest : List Char),
      '"' ∉ pre →
      lookupA ctx.loop_vars ⟨pre⟩ = none →
      resolveParamValue ⟨pre ++ '"' :: rest⟩ ctx = .ok ⟨pre ++ '"' :: rest⟩) ∧
    (∀ (ctx : RenderContext) (value : String),
      '"' ∉ value.data →
      resolveParamValue value ctx = .ok value) := by
  have hfind : ∀ (pre rest : List Char), '"' ∉ pre →
      (pre ++ '"' :: rest).findIdx? (· == '"') = some pre.length := by
    intro pre rest hq
    exact findIdx?_split _ pre '"' rest
      (fun c hc => by simp; exact fun h => hq (h ▸ hc)) (by simp)
  refine ⟨?_, ?_, ?_, ?_⟩
  · intro ctx pre rest i hq hl
    simp only [resolveParamValue, hfind pre rest hq, List.take_left,
      drop_split, hl]
  · intro ctx pre rest m hq hl
    simp only [resolveParamValue, hfind pre rest hq, List.take_left,
      drop_split, hl]
  · intro ctx pre rest hq hl
    simp only [resolveParamValue, hfind pre rest hq, List.take_left,
      drop_split, hl]
  · intro ctx value hq
    have : value.data.findIdx? (· == '"') = none := by
      rw [List.findIdx?_eq_none_iff]
      intro x hx
      simp
      exact fun h => hq (h ▸ hx)
    simp only [resolveParamValue, this]

/-- Witness for C5: the spec's example — with i bound to Index 2, the text
i"d" resolves to "2d"; with i unbound it passes through unchanged. -/
theorem c5_param_interpolation_witness :
    resolveParamValue ⟨"i".data ++ '"' :: "d\"".data⟩
        (emptyCtx.withLoopVar "i" (.Index 2)) =
      .ok (toString (2 : Int) ++
        (⟨(("d\"".data).reverse.dropWhile (· == '"')).reverse⟩ : String)) ∧
    resolveParamValue ⟨"x".data ++ '"' :: "d\"".data⟩ emptyCtx =
      .ok ⟨"x".data ++ '"' :: "d\"".data⟩ := by
  constructor
  · exact c5_param_interpolation.1 (emptyCtx.withLoopVar "i" (.Index 2))
      "i".data "d\"".data 2 (by decide) (by decide)
  · exact c5_param_interpolation.2.2.1 emptyCtx "x".data "d\"".data
      (by decide) (by decide)

/-- C6: a parameter part containing an equals sign splits at the first equals
sign even when a colon occurs earlier; a part with no equals sign but a colon
splits at the first colon; a part with neither fails; a separator at position 0
(empty key) fails; an empty value is permitted (covered by the first two parts
with an empty remainder). -/
theorem c6_param_split :
    (∀ (pre post : List Char), '=' ∉ pre → pre ≠ [] →
      parseParam (pre ++ '=' :: post) = .ok (⟨pre⟩, ⟨post⟩)) ∧
    (∀ (pre post : List Char), '=' ∉ (pre ++ ':' :: post) → ':' ∉ pre → pre ≠ [] →
      parseParam (pre ++ ':' :: post) = .ok (⟨pre⟩, ⟨post⟩)) ∧
    (∀ (part : List Char), '=' ∉ part → ':' ∉ part →
      parseParam part = .error (.invalidParamMissingSep ⟨part⟩)) ∧
    (∀ (post : List Char),
      parseParam ('=' :: post) = .error (.invalidParamEmptyKey ⟨'=' :: post⟩)) ∧
    (∀ (post : List Char), '=' ∉ (':' :: post) →
      parseParam (':' :: post) = .error (.invalidParamEmptyKey ⟨':' :: post⟩)) := by
  have hnone : ∀ (c : Char) (l : List Char), c ∉ l →
      l.findIdx? (· == c) = none := by
    intro c l hc
    rw [List.findIdx?_eq_none_iff]
    intro x hx
    simp
    exact fun h => hc (h ▸ hx)
  refine ⟨?_, ?_, ?_, ?_, ?_⟩
  · intro pre post hpre hne
    have hfind : (pre ++ '=' :: post).findIdx? (· == '=') = some pre.length :=
      findIdx?_split _ pre '=' post
        (fun c hc => by simp; exact fun h => hpre (h ▸ hc)) (by simp)
    simp only [parseParam, hfind, List.take_left, drop_split, hne,
      if_neg, ite_false]
  · intro pre post heq hpre hne
    have hfind : (pre ++ ':' :: post).findIdx? (· == ':') = some pre.length :=
      findIdx?_split _ pre ':' post
        (fun c hc => by simp; exact fun h => hpre (h ▸ hc)) (by simp)
    simp only [parseParam, hnone '=' _ heq, hfind, List.take_left, drop_split,
      hne, if_neg, ite_false]
  · intro part heq hco
    simp only [parseParam, hnone '=' part heq, hnone ':' part hco]
  · intro post
    have hfind : (('=' :: post) : List Char).findIdx? (· == '=') = some 0 := by
      rw [List.findIdx?_cons]
      simp
    simp [parseParam, hfind]
  · intro post h
    have hfind : ((':' :: post) : List Char).findIdx? (· == ':') = some 0 := by
      rw [List.findIdx?_cons]
      simp
    simp [parseParam, hnone '=' _ h, hfind]

/-- Witness for C6: the spec's example "key=val:ue" splits at the equals sign
despite the earlier-looking colon in the value, and an empty value parses. -/
theorem c6_param_split_witness :
    parseParam ("key".data ++ '=' :: "val:ue".data) =
      .ok (⟨"key".data⟩, ⟨"val:ue".data⟩) ∧
    parseParam ("key".data ++ '=' :: ([] : List Char)) =
      .ok (⟨"key".data⟩, ⟨([] : List Char)⟩) ∧
    parseParam "nosep".data = .error (.invalidParamMissingSep ⟨"nosep".data⟩) ∧
    parseParam ('=' :: "value".data) =
      .error (.invalidParamEmptyKey ⟨'=' :: "value".data⟩) := by
  refine ⟨?_, ?_, ?_, ?_⟩
  · exact c6_param_split.1 "key".data "val:ue".data (by decide) (by decide)
  · exact c6_param_split.1 "key".data [] (by decide) (by decide)
  · exact c6_param_split.2.2.1 "nosep".data (by decide) (by decide)
  · exact c6_param_split.2.2.2.1 "value".data

/-- C7 counterexample: a for-loop header whose three pieces are separated by
whitespace that is not a single space (here a tab between the variable and
"in") is rejected with `invalidForLoopSyntax`, although the claim says any
whitespace-separated `<var> in <rest>` header parses. -/
theorem c7_counterexample :
    parseForLoop "i\tin (1..2)".data =
      .error (.invalidForLoopSyntax "i\tin (1..2)") := by
  decide

/-- C7 amended: the header is split on the SPACE character only (at most 3
pieces). A header of the exact shape `<var> <space> in <space> <rest>` with a
space-free variable name parses by handing `<rest>` (spaces retained) to the
iterable parser; when the single-space split yields fewer than three pieces or
a second piece other than "in", parsing fails with `invalidForLoopSyntax`. -/
theorem c7_for_header :
    (∀ (var rest : String), ' ' ∉ var.data →
      parseForLoop (var.data ++ ' ' :: 'i' :: 'n' :: ' ' :: rest.data) =
        parseForRest var rest.data) ∧
    (∀ (body : List Char),
      (splitnChar 3 ' ' body).length < 3 ∨
        (splitnChar 3 ' ' body).get? 1 ≠ some ['i', 'n'] →
      parseForLoop body = .error (.invalidForLoopSyntax ⟨body⟩)) := by
  constructor
  · intro var rest hv
    have e3 : ∀ (sep : Char) (l : List Char), splitnChar 3 sep l =
        match l.findIdx? (· == sep) with
        | none => [l]
        | some i => l.take i :: splitnChar 2 sep (l.drop (i + 1)) :=
      fun _ _ => rfl
    have e2 : ∀ (sep : Char) (l : List Char), splitnChar 2 sep l =
        match l.findIdx? (· == sep) with
        | none => [l]
        | some i => l.take i :: splitnChar 1 sep (l.drop (i + 1)) :=
      fun _ _ => rfl
    have e1 : ∀ (sep : Char) (l : List Char), splitnChar 1 sep l = [l] :=
      fun _ _ => rfl
    have h1 : (var.data ++ ' ' :: 'i' :: 'n' :: ' ' :: rest.data).findIdx?
        (· == ' ') = some var.data.length :=
      findIdx?_split _ var.data ' ' ('i' :: 'n' :: ' ' :: rest.data)
        (fun c hc => by simp; exact fun h => hv (h ▸ hc)) (by simp)
    have h2 : (('i' :: 'n' :: ' ' :: rest.data) : List Char).findIdx? (· == ' ')
        = some 2 := by
      have := findIdx?_split (· == ' ') ['i', 'n'] ' ' rest.data
        (by decide) (by simp)
      simpa using this
    have ht : (('i' :: 'n' :: ' ' :: rest.data) : List Char).take 2 = ['i', 'n'] := by
      simpa using List.take_left ['i', 'n'] (' ' :: rest.data)
    have hd : (('i' :: 'n' :: ' ' :: rest.data) : List Char).drop 3 = rest.data := by
      simpa using drop_split ['i', 'n'] ' ' rest.data
    have hsplit : splitnChar 3 ' ' (var.data ++ ' ' :: 'i' :: 'n' :: ' ' :: rest.data)
        = [var.data, ['i', 'n'], rest.data] := by
      rw [e3, h1]
      simp only [List.take_left, drop_split]
      rw [e2, h2]
      simp only [ht, hd]
      rw [e1]
    simp only [parseForLoop, hsplit]
    rfl
  · intro body h
    match hp : splitnChar 3 ' ' body with
    | [] => simp only [parseForLoop, hp]
    | [a] => simp only [parseForLoop, hp]
    | [a, b] => simp only [parseForLoop, hp]
    | [a, b, c] =>
        rw [hp] at h
        simp only [List.length_cons, List.length_nil, List.get?] at h
        have hb : b ≠ ['i', 'n'] := by
          rcases h with h | h
          · omega
          · intro hbe
            exact h (by rw [hbe])
        simp only [parseForLoop, hp, hb, if_neg, ite_false]
    | a :: b :: c :: d :: t => simp only [parseForLoop, hp]

/-- Witness for the amended C7: the single-space header "i in (1..2)" parses
into the range iterable, and a double space breaks the shape. -/
theorem c7_for_header_witness :
    parseForLoop ("i".data ++ ' ' :: 'i' :: 'n' :: ' ' :: "(1..2)".data) =
      parseForRest "i" "(1..2)".data ∧
    parseForLoop "i  in x".data = .error (.invalidForLoopSyntax "i  in x") := by
  constructor
  · exact c7_for_header.1 "i" "(1..2)" (by decide)
  · have h := c7_for_header.2 "i  in x".data (by decide)
    simpa using h

/-- C8: a collection for-loop over "memories" iterates the context's memories
in their existing (newest-first) order mapped to `Memory` loop values, taking
`min available limit` items from the front when a `limit` param parses as a
non-negative integer and all items otherwise (`specTakeCount`), rendering the
body once per item with the loop variable bound. -/
theorem c8_memories_loop :
    (∀ (ctx : RenderContext),
      getCollection "memories" ctx = .ok (ctx.memories.map LoopValue.Memory)) ∧
    (∀ (clock : Clock) (ctx : RenderContext) (var : String) (params : Params)
        (body : List Token),
      executeForLoop clock ⟨var, .Collection "memories", params⟩ body ctx =
        specIterate clock var body ctx
          ((ctx.memories.map LoopValue.Memory).take
            (specTakeCount params ctx.memories.length))) := by
  constructor
  · intro ctx
    simp [getCollection]
  · intro clock ctx var params body
    rw [executeForLoop]
    simp only [getCollection, if_pos, ite_true]
    rw [renderIterations_eq_specIterate]
    simp only [specTakeCount, List.length_map]

/-- C9: a `ForStart` whose following tokens have no `ForEnd` at the same
nesting depth renders to `unterminatedForLoop`; a `ForEnd` reached by the
evaluator with no enclosing `ForStart` renders to `unexpectedEndFor`; and the
block matcher skips nested for-blocks correctly, matching a balanced body's
closing `ForEnd` and returning exactly that body. -/
theorem c9_loop_matching :
    (∀ (b : List Token), Balanced b → ∀ (rest : List Token),
      collectForBody (b ++ .ForEnd :: rest) = .ok (b, b.length)) ∧
    (∀ (ts : List Token), hasEndAtDepth 0 ts = false →
      ∀ (clock : Clock) (f : ForLoop) (ctx : RenderContext),
        renderTokens clock (.ForStart f :: ts) ctx = .err .unterminatedForLoop) ∧
    (∀ (clock : Clock) (rest : List Token) (ctx : RenderContext),
      renderTokens clock (.ForEnd :: rest) ctx = .err .unexpectedEndFor) := by
  refine ⟨?_, ?_, ?_⟩
  · intro b hb rest
    exact collectForBody_balanced b hb rest
  · intro ts hts clock f ctx
    have hcol : collectForBody ts = .error .unterminatedForLoop :=
      collectForBodyAux_of_no_end ts 0 hts
    simp only [renderTokens]
    split
    · next e hc =>
        rw [hcol] at hc
        injection hc with h
        rw [h]
    · next body endIdx hc =>
        rw [hcol] at hc
        cases hc
  · intro clock rest ctx
    simp only [renderTokens]

/-- Witness for C9: a loop over a literal body with its endfor matches (body
returned verbatim), a loop followed only by a literal is unterminated, and a
bare endfor is rejected. -/
theorem c9_loop_matching_witness :
    collectForBody ([.Literal "x"] ++ .ForEnd :: []) = .ok ([.Literal "x"], 1) ∧
    renderTokens trivClock [.ForStart ⟨"i", .Range 1 2, []⟩, .Literal "x"]
      emptyCtx = .err .unterminatedForLoop ∧
    renderTokens trivClock [.ForEnd] emptyCtx = .err .unexpectedEndFor := by
  refine ⟨?_, ?_, ?_⟩
  · exact c9_loop_matching.1 [.Literal "x"] (.lit _ _ .nil) []
  · exact c9_loop_matching.2.1 [.Literal "x"] (by decide) trivClock
      ⟨"i", .Range 1 2, []⟩ emptyCtx
  · exact c9_loop_matching.2.2 trivClock [] emptyCtx

/-- C10: loop-variable bindings do not escape their for-block: when a for-block
renders successfully and is followed by a tag naming a plain (non-builtin,
undotted, unprefixed) variable that is unbound in the enclosing context, the
whole sequence fails with `unknownTag` for that name — the tag after the
endfor is resolved against the original context, to which the loop's bindings
were never added (the evaluator only ever mutates its per-block clone). -/
theorem c10_no_leak (clock : Clock) (ctx : RenderContext) (f : ForLoop)
    (b : List Token) (name : String) (params : Params) (s : String)
    (hb : Balanced b)
    (hok : executeForLoop clock f b ctx = .ok s)
    (hdot : name.data.findIdx? (· == '.') = none)
    (hproxy : "proxy:".data.isPrefixOf name.data = false)
    (hcustom : "custom:".data.isPrefixOf name.data = false)
    (hbuiltin : name ∉ (["date", "datetime", "datetimeiso", "result",
      "message", "sender", "memory"] : List String))
    (hunbound : lookupA ctx.loop_vars name = none) :
    renderTokens clock
        (.ForStart f :: (b ++ .ForEnd :: [.Tag ⟨name, params, none⟩])) ctx =
      .err (.unknownTag name) := by
  rw [renderTokens_forBlock clock f b _ ctx hb, hok]
  simp only [Outcome.ok_bind]
  simp only [renderTokens]
  rw [resolveTag_plain clock ⟨name, params, none⟩ ctx hdot hproxy hcustom hbuiltin]
  rw [hunbound]
  rfl

/-- Witness for C10: after a successful loop over 1..2 with body "x", the tag
naming the loop variable in the enclosing (empty) context is unknown. -/
theorem c10_no_leak_witness :
    renderTokens trivClock
        (.ForStart ⟨"i", .Range 1 2, []⟩ ::
          ([.Literal "x"] ++ .ForEnd :: [.Tag ⟨"i", [], none⟩])) emptyCtx =
      .err (.unknownTag "i") := by
  apply c10_no_leak trivClock emptyCtx ⟨"i", .Range 1 2, []⟩ [.Literal "x"]
    "i" [] "xx" (.lit _ _ .nil)
  · have hr : intRange 1 2 = [1, 2] := by decide
    simp [executeForLoop, renderIterations, renderTokens, hr, List.map_cons,
      List.map_nil]
  · decide
  · decide
  · decide
  · decide
  · decide

end Vatic
